import Mathlib

/-
  Verification development for the js-lisp kernel.

  Shallow embedding of:
  - the environment chain (src/src/javascript/lisp/Env.js: Env.has, Env.get,
    Env.set, Env.let),
  - the built-in macro file (src/unnamed/part_000: lambda, defun, try, let,
    setq, progn, if, when, not, or, and, the comparison macros and the is-*
    predicates).

  The evaluator core (resolve, the reader, the predicate/comparator helpers
  and the installation of the root environment) is not among the sources;
  those parts are modelled from the specification, and each such definition
  is marked "Modelled from the spec" in its doc comment.

  Conventions of the embedding:
  - JavaScript's runtime values are the inductive `Value`; host Error objects
    are modelled as strings carrying the message; numbers are modelled as
    integers (no claim under verification depends on floating point).
  - The mutable global `lisp.env` together with the heap of environment
    frames and the host namespace form the state `LispState`; frames are
    heap cells addressed by index, so that closures capture frames by
    reference, exactly as in the source.
  - Evaluation is fuel-indexed; exhausted fuel yields the distinguished
    outcome `timeout`, which no construct of the language can intercept.
  - JavaScript exceptions are the outcome `thrown`; the state at throw time
    is carried along, mirroring that `lisp.env` is a global whose value at
    the moment of the throw survives the unwinding.
-/

namespace JsLisp

/-- Runtime values of the lisp kernel, which double as the forms the reader
produces: numbers, strings, booleans, null, undefined, symbols, keywords,
lists, functions (closures from `lambda`, functions installed by `defun`,
and the built-in `throw`) and macro objects (modelled by the name they are
registered under). -/
inductive Value where
  | num (n : Int)
  | str (s : String)
  | bool (b : Bool)
  | null
  | undefined
  | sym (name : String)
  | kw (name : String)
  | list (elems : List Value)
  | closure (envId : Nat) (params : List String) (body : List Value)
  | defunFn (params : List String) (body : List Value)
  | throwFn
  | mac (name : String)
deriving Repr

/-- Outcome of one evaluation: a value, a thrown JavaScript exception, or
exhaustion of the evaluation fuel. -/
inductive Outcome where
  | ok (v : Value)
  | thrown (e : Value)
  | timeout
deriving Repr

/-- Parent link of an environment frame: either another frame (by heap id)
or the terminal host namespace, which is a raw mapping and not itself a
frame (spec section 3). -/
inductive ParentRef where
  | env (fid : Nat)
  | host
deriving Repr

/-- One environment frame: `Env.parent` and `Env.symbols` of Env.js. -/
structure Frame where
  parent : ParentRef
  symbols : List (String × Value)
deriving Repr

/-- Machine state: the heap of frames (frame ids index this list), the host
namespace mapping, and `cur`, the frame id held by the global `lisp.env`. -/
structure LispState where
  frames : List Frame
  globalNS : List (String × Value)
  cur : Nat
deriving Repr

/-- Association-list lookup (a JavaScript object with no prototype chain). -/
def alookup : List (String × Value) → String → Option Value
  | [], _ => none
  | (k, v) :: rest, name => if k = name then some v else alookup rest name

/-- Association-list update-or-append (JavaScript property assignment). -/
def aset : List (String × Value) → String → Value → List (String × Value)
  | [], name, v => [(name, v)]
  | (k, w) :: rest, name, v =>
    if k = name then (k, v) :: rest else (k, w) :: aset rest name v

/-- JavaScript truthiness of a modelled value: `false`, `0`, the empty
string, `null` and `undefined` are falsy, everything else is truthy. -/
def truthy : Value → Bool
  | .bool b => b
  | .num n => n != 0
  | .str s => s != ""
  | .null => false
  | .undefined => false
  | _ => true

/-- JavaScript `value != undefined` under loose comparison: false exactly
for `undefined` and `null`. Env.has uses this test on its host namespace
branch. -/
def looseNeqUndef : Value → Bool
  | .undefined => false
  | .null => false
  | _ => true

/-- String coercion used where the source calls `String(symbol)`: symbols
and keywords stringify to their name, strings to themselves. Other values
do not occur as binding names in the programs under verification. -/
def toName : Value → String
  | .sym n => n
  | .kw n => n
  | .str s => s
  | _ => ""

/-- Frame heap access. -/
def frameAt (s : LispState) (fid : Nat) : Option Frame :=
  s.frames.get? fid

/-- Replacement of the binding `name := v` inside frame `fid`, the in-place
rewrite `this.symbols[symbol] = value` of Env.set. -/
def updateFrame (s : LispState) (fid : Nat) (name : String) (v : Value) : LispState :=
  match frameAt s fid with
  | some fr =>
    { s with frames := s.frames.set fid { fr with symbols := aset fr.symbols name v } }
  | none => s

/-- Env.has, walking the chain: key ownership (`hasOwnProperty`) in each
frame's own mapping; at the terminal host namespace the source tests
`this.parent[symbol] != undefined`, which is value based, not ownership
based. The walk is fuel-indexed; `fid + 1` fuel always suffices because
every frame's parent has a smaller heap id in well-formed states. -/
def hasAux (s : LispState) : Nat → Nat → String → Bool
  | 0, _, _ => false
  | fuel + 1, fid, name =>
    match frameAt s fid with
    | none => false
    | some fr =>
      match alookup fr.symbols name with
      | some _ => true
      | none =>
        match fr.parent with
        | .env p => hasAux s fuel p name
        | .host => looseNeqUndef ((alookup s.globalNS name).getD .undefined)

/-- Entry point for Env.has on the frame `fid`. -/
def envHas (s : LispState) (fid : Nat) (name : String) : Bool :=
  hasAux s (fid + 1) fid name

/-- Walk of Env.get for an undotted symbol. A frame answers when it owns the
key or holds a truthy value under it (`this.symbols.hasOwnProperty(symbol)
|| this.symbols[symbol]`; without prototype chains the second disjunct is
subsumed by the first, and it is kept for fidelity to the source); the host
namespace branch reads `this.parent[symbol]` with no existence test. -/
def getAux (s : LispState) : Nat → Nat → String → Value
  | 0, _, _ => .undefined
  | fuel + 1, fid, name =>
    match frameAt s fid with
    | none => .undefined
    | some fr =>
      if (alookup fr.symbols name).isSome
          || truthy ((alookup fr.symbols name).getD .undefined) then
        (alookup fr.symbols name).getD .undefined
      else
        match fr.parent with
        | .env p => getAux s fuel p name
        | .host => (alookup s.globalNS name).getD .undefined

/-- Reducible transcription of `symbol.split(".")` as used by Env.get and
Env.set (String.splitOn does not reduce in the kernel, so the split walks
the character list). -/
def splitDotsAux : List Char → List Char → List String
  | [], acc => [String.mk acc.reverse]
  | c :: rest, acc =>
    if c = Char.ofNat 46 then String.mk acc.reverse :: splitDotsAux rest []
    else splitDotsAux rest (c :: acc)

/-- Dotted-path segments of a symbol name. -/
def splitDots (name : String) : List String :=
  splitDotsAux name.toList []

/-- Property access on a modelled value, used by the dotted-path tail chase
of Env.get. The modelled value universe carries no host object properties
(no claim under verification uses dotted paths), so the access yields
undefined. -/
def getProp (_v : Value) (_key : String) : Value :=
  .undefined

/-- Env.get: split the symbol on dots, look the head up through the chain,
then, when the base value is truthy, chase the remaining path segments as
property accesses. -/
def envGet (s : LispState) (fid : Nat) (name : String) : Value :=
  match splitDots name with
  | [] => .undefined
  | head :: parts =>
    let base := getAux s (fid + 1) fid head
    if truthy base ∧ parts ≠ [] then parts.foldl getProp base else base

/-- Walk of the known-name branch of Env.set: rewrite in place in the first
frame that owns the key, otherwise recurse into the parent (the source wraps
the recursion in try/catch, but with an undotted name the recursive call
cannot throw, so the catch branch is dead); at the host namespace assign
`this.parent[symbol] = value`. -/
def setOwnAux (s : LispState) : Nat → Nat → String → Value → LispState
  | 0, _, _, _ => s
  | fuel + 1, fid, name, v =>
    match frameAt s fid with
    | none => s
    | some fr =>
      match alookup fr.symbols name with
      | some _ => updateFrame s fid name v
      | none =>
        match fr.parent with
        | .env p => setOwnAux s fuel p name v
        | .host => { s with globalNS := aset s.globalNS name v }

/-- Env.set for an undotted name: when `has` reports the name, rewrite the
nearest existing binding in place; otherwise create the binding at the top
level. Modelled from the spec: the source locates the top level by walking
`while (object.parent && object.parent.symbols != global)`, a comparison
against the host global mapping whose installation (the construction of the
root environment) is not among the sources; per spec sections 4.2 and 9,
`set` on an unknown name creates the binding in the host namespace. Dotted
names assign a property on the `get`-resolved prefix object, which is
outside the modelled value universe and unused by every claim; the dotted
branch is modelled as a no-op. -/
def envSet (s : LispState) (fid : Nat) (name : String) (v : Value) : LispState :=
  if (splitDots name).length > 1 then s
  else if envHas s fid name then setOwnAux s (fid + 1) fid name v
  else { s with globalNS := aset s.globalNS name v }

/-- Env.let: raw insertion into the frame's own mapping, shadowing any outer
binding. -/
def envLet (s : LispState) (fid : Nat) (name : String) (v : Value) : LispState :=
  updateFrame s fid name v

/-- Allocation of `new Env(parent)`: a fresh empty frame whose parent is the
frame `parentFid`; returns the new state and the fresh frame id. -/
def newFrame (s : LispState) (parentFid : Nat) : LispState × Nat :=
  ({ s with frames := s.frames ++ [{ parent := .env parentFid, symbols := [] }] },
   s.frames.length)

/-- Transcription of `lisp.env = lisp.env.parent`. Popping past the root
frame (whose parent is the host namespace) does not occur in the modelled
programs; it leaves the current frame unchanged. -/
def popEnv (s : LispState) : LispState :=
  match frameAt s s.cur with
  | some fr =>
    match fr.parent with
    | .env p => { s with cur := p }
    | .host => s
  | none => s

end JsLisp

namespace JsLisp

/-- JavaScript `typeof` restricted to the modelled value universe. Symbol,
Keyword and Macro instances and lists are host objects; `null` reports
"object" as in the host. -/
def jsTypeof : Value → String
  | .num _ => "number"
  | .str _ => "string"
  | .bool _ => "boolean"
  | .undefined => "undefined"
  | .null => "object"
  | .sym _ => "object"
  | .kw _ => "object"
  | .list _ => "object"
  | .closure _ _ _ => "function"
  | .defunFn _ _ => "function"
  | .throwFn => "function"
  | .mac _ => "object"

/-- JavaScript strict equality on the modelled values. Host objects (lists,
functions, symbol and keyword instances) compare by reference in the host;
reference identity is not modelled and such comparisons do not occur in the
verified programs, so they yield false here. -/
def strictEqV : Value → Value → Bool
  | .num a, .num b => a == b
  | .str a, .str b => a == b
  | .bool a, .bool b => a == b
  | .null, .null => true
  | .undefined, .undefined => true
  | _, _ => false

/-- JavaScript `Number()` coercion on the modelled values; `none` stands for
NaN. -/
def toNumV : Value → Option Int
  | .num n => some n
  | .str t => t.toInt?
  | .bool b => some (if b then 1 else 0)
  | .null => some 0
  | _ => none

/-- JavaScript loose equality on the modelled values: strict equality plus
the null/undefined pairing and numeric coercion of strings. -/
def looseEqV (a b : Value) : Bool :=
  match a, b with
  | .null, .undefined => true
  | .undefined, .null => true
  | .num n, .str t => (t.toInt?).any (fun m => m == n)
  | .str t, .num n => (t.toInt?).any (fun m => m == n)
  | _, _ => strictEqV a b

/-- JavaScript `<`: lexicographic on two strings, otherwise numeric with
coercion; any NaN operand makes the comparison false. -/
def ltVb (a b : Value) : Bool :=
  match a, b with
  | .str x, .str y => decide (x < y)
  | _, _ =>
    match toNumV a, toNumV b with
    | some x, some y => decide (x < y)
    | _, _ => false

/-- JavaScript `<=` under the same coercion rules as `ltVb`. -/
def leVb (a b : Value) : Bool :=
  match a, b with
  | .str x, .str y => decide (x ≤ y)
  | _, _ =>
    match toNumV a, toNumV b with
    | some x, some y => decide (x ≤ y)
    | _, _ => false

/-- Callable test used by the evaluator before argument evaluation. -/
def isFunction : Value → Bool
  | .closure _ _ _ => true
  | .defunFn _ _ => true
  | .throwFn => true
  | _ => false

/-- Parameter list of a lambda or defun form: a list of symbols, stringified
as the source's `String(arglist[i])`. -/
def paramNames : Value → List String
  | .list xs => xs.map toName
  | _ => []

/-- Positional parameter binding of a lambda call: `lisp.env.let(arglist[i],
arguments[i])` for each parameter; absent arguments read as undefined and
surplus arguments are ignored because the loop runs over the parameter
list. -/
def bindParamsLet (fid : Nat) : List String → List Value → LispState → LispState
  | [], _, s => s
  | p :: ps, args, s => bindParamsLet fid ps args.tail (envLet s fid p (args.headD .undefined))

/-- Positional parameter installation of a defun call: `lisp.env.set(...)`
on the fresh frame, so an existing outer binding is rewritten in place
rather than shadowed. -/
def bindParamsSet : List String → List Value → LispState → LispState
  | [], _, s => s
  | p :: ps, args, s => bindParamsSet ps args.tail (envSet s s.cur p (args.headD .undefined))

/-- Detection of the catch clause by the try macro: the last argument must
be a list of length at least one whose head is the symbol `catch`; the
result is the body arguments and the clause's tail. -/
def tryDetect (args : List Value) : Option (List Value × List Value) :=
  match args.getLast? with
  | some (.list (.sym "catch" :: tail)) => some (args.dropLast, tail)
  | _ => none

/-- Conversion of a catch clause into a lambda form: the head symbol is
rewritten to `lambda` and an empty parameter list is pushed when the clause
consists of the bare `catch` symbol. -/
def convertCatch (tail : List Value) : Value :=
  .list (.sym "lambda" :: (if tail.isEmpty then [.list []] else tail))

/-- Result of evaluating an argument list: the evaluated values, or the
outcome that stopped the evaluation. -/
inductive ArgsOut where
  | vals (vs : List Value)
  | stop (o : Outcome)
deriving Repr

/-- Result of the try macro's body loop: normal completion with the last
value, a throw together with the value of the last body form completed
before it, or fuel exhaustion. -/
inductive TryOut where
  | done (ret : Value)
  | threw (ret : Value) (e : Value)
  | tmo
deriving Repr

end JsLisp

namespace JsLisp

/-- Shape of the evaluator passed to the combinators below: each helper of
the kernel receives the form resolver as a parameter (the fuelled `resolve`
one recursion level deeper), so that every helper is a plain structural
definition. -/
abbrev Resolver := Value → LispState → LispState × Outcome

/-- Left-to-right resolution of the arguments of a function call; a throw
or timeout stops the walk (spec section 4.3 rule d). -/
def evalArgsF (rf : Resolver) : List Value → LispState → LispState × ArgsOut
  | [], s => (s, .vals [])
  | f :: rest, s =>
    match rf f s with
    | (s₁, .ok v) =>
      match evalArgsF rf rest s₁ with
      | (s₂, .vals vs) => (s₂, .vals (v :: vs))
      | other => other
    | (s₁, .thrown e) => (s₁, .stop (.thrown e))
    | (s₁, .timeout) => (s₁, .stop .timeout)

/-- Sequential evaluation of body forms with `var ret = null` and a loop
assigning `ret = resolve(body[i])`: the pattern shared by lambda and defun
bodies, let bodies, progn and the else arm of if. -/
def evalBodyF (rf : Resolver) : List Value → LispState → LispState × Outcome
  | [], s => (s, .ok .null)
  | [f], s => rf f s
  | f :: rest, s =>
    match rf f s with
    | (s₁, .ok _) => evalBodyF rf rest s₁
    | other => other

/-- Binding loop of the let macro: for each `(name expr)` entry the
expression is resolved against the environment current at that moment,
which is the freshly pushed frame already holding the earlier bindings of
the same letset, and the result is let-bound into the current frame. -/
def letBindF (rf : Resolver) : List Value → LispState → LispState × Outcome
  | [], s => (s, .ok .null)
  | entry :: rest, s =>
    let nm := match entry with | .list (x :: _) => toName x | _ => ""
    let expr := match entry with | .list (_ :: e :: _) => e | _ => .undefined
    match rf expr s with
    | (s₁, .ok v) => letBindF rf rest (envLet s₁ s₁.cur nm v)
    | other => other

/-- Lazy reduction over argument forms that stops at the first resolved
value failing the test, as used by not, and and every is-* predicate.
Modelled from the spec (sections 4.4 and 9): the `predicate` helper of the
evaluator core is not among the sources. -/
def predRunF (rf : Resolver) (f : Value → Bool) : List Value → LispState → LispState × Outcome
  | [], s => (s, .ok (.bool true))
  | a :: rest, s =>
    match rf a s with
    | (s₁, .ok v) => if f v then predRunF rf f rest s₁ else (s₁, .ok (.bool false))
    | other => other

/-- Tail of the comparison chain: `prev` is the last resolved value. -/
def compAuxF (rf : Resolver) (f : Value → Value → Bool) : Value → List Value → LispState → LispState × Outcome
  | _, [], s => (s, .ok (.bool true))
  | prev, b :: rest, s =>
    match rf b s with
    | (s₁, .ok w) => if f prev w then compAuxF rf f w rest s₁ else (s₁, .ok (.bool false))
    | other => other

/-- Pairwise left-to-right comparison chain that stops at the first failing
pair, as used by the comparison macros. Modelled from the spec (sections
4.4 and 9): the `comparator` helper of the evaluator core is not among the
sources. -/
def compRunF (rf : Resolver) (f : Value → Value → Bool) : List Value → LispState → LispState × Outcome
  | [], s => (s, .ok (.bool true))
  | a :: rest, s =>
    match rf a s with
    | (s₁, .ok v) => compAuxF rf f v rest s₁
    | other => other

/-- Loop of the or macro: resolve arguments left to right, return true at
the first truthy value, false when none is. -/
def orRunF (rf : Resolver) : List Value → LispState → LispState × Outcome
  | [], s => (s, .ok (.bool false))
  | a :: rest, s =>
    match rf a s with
    | (s₁, .ok v) => if truthy v then (s₁, .ok (.bool true)) else orRunF rf rest s₁
    | other => other

/-- Body loop of the try macro: `ret` is the value of the last completed
form (initially null); a throw reports both `ret` and the thrown value. -/
def tryRunF (rf : Resolver) : List Value → Value → LispState → LispState × TryOut
  | [], ret, s => (s, .done ret)
  | f :: rest, ret, s =>
    match rf f s with
    | (s₁, .ok v) => tryRunF rf rest v s₁
    | (s₁, .thrown e) => (s₁, .threw ret e)
    | (s₁, .timeout) => (s₁, .tmo)

/-- Application of a callable. A lambda closure re-enters the single frame
captured in the closure (`lisp.env = env`), lets `this` and the parameters
into it, runs the body, and restores the caller's frame on normal return
only. A defun function allocates a child of the frame current at call time
(`lisp.env = new Env(lisp.env)`), installs the parameters via Env.set, runs
the body, and pops to the parent on normal return only. The built-in throw
raises its first argument. -/
def applyFunF (rf : Resolver) (fn recv : Value) (args : List Value) (s : LispState) :
    LispState × Outcome :=
  match fn with
  | .closure fid params body =>
    let s₁ := bindParamsLet fid params args (envLet { s with cur := fid } fid "this" recv)
    match evalBodyF rf body s₁ with
    | (s₂, .ok v) => ({ s₂ with cur := s.cur }, .ok v)
    | other => other
  | .defunFn params body =>
    let alloc := newFrame s s.cur
    let s₁ := bindParamsSet params args { alloc.1 with cur := alloc.2 }
    match evalBodyF rf body s₁ with
    | (s₂, .ok v) => (popEnv s₂, .ok v)
    | other => other
  | .throwFn => (s, .thrown (args.headD .undefined))
  | _ => (s, .thrown (.str "not a function"))

/-- Transcription of the try macro. The second component of the result is
the argument form list as left in memory by the macro: the source mutates
the catch clause in place (head symbol rewritten to `lambda`, an empty
parameter list pushed when absent) before resolving it, so after a caught
throw the form holds a lambda clause in place of the catch clause. When
the body completes, or when no catch clause is detected, the forms are
untouched. A throw with a catch clause resolves the converted clause, calls
the resulting function with the thrown value, discards the handler's return
value and yields `ret`; a throw without a catch clause is rethrown. -/
def tryFullF (rf : Resolver) (args : List Value) (s : LispState) :
    (LispState × Outcome) × List Value :=
  match tryDetect args with
  | some (body, tail) =>
    match tryRunF rf body .null s with
    | (s₁, .done v) => ((s₁, .ok v), args)
    | (s₁, .threw ret e) =>
      let clause := convertCatch tail
      ((match rf clause s₁ with
        | (s₂, .ok f) =>
          match applyFunF rf f .undefined [e] s₂ with
          | (s₃, .ok _) => (s₃, .ok ret)
          | other => other
        | other => other), body ++ [clause])
    | (s₁, .tmo) => ((s₁, .timeout), args)
  | none =>
    match tryRunF rf args .null s with
    | (s₁, .done v) => ((s₁, .ok v), args)
    | (s₁, .threw _ e) => ((s₁, .thrown e), args)
    | (s₁, .tmo) => ((s₁, .timeout), args)

/-- Dispatcher over the built-in macros of src/unnamed/part_000, each case
transcribing the body of the corresponding `defmacro`. -/
def applyMacF (rf : Resolver) (name : String) (args : List Value) (s : LispState) :
    LispState × Outcome :=
  match name with
  | "lambda" =>
    let alloc := newFrame s s.cur
    (alloc.1, .ok (.closure alloc.2 (paramNames (args.headD (.list []))) args.tail))
  | "defun" =>
    (envSet s s.cur (toName (args.headD .undefined))
      (.defunFn (paramNames ((args.get? 1).getD (.list []))) (args.drop 2)),
     .ok .undefined)
  | "try" => (tryFullF rf args s).1
  | "let" =>
    let entries := match args.headD .undefined with | .list es => es | _ => []
    let alloc := newFrame s s.cur
    match letBindF rf entries { alloc.1 with cur := alloc.2 } with
    | (s₂, .ok _) =>
      match evalBodyF rf args.tail s₂ with
      | (s₃, .ok v) => (popEnv s₃, .ok v)
      | other => other
    | other => other
  | "setq" =>
    match rf ((args.get? 1).getD .undefined) s with
    | (s₁, .ok v) => (envSet s₁ s₁.cur (toName (args.headD .undefined)) v, .ok v)
    | other => other
  | "progn" => evalBodyF rf args s
  | "if" =>
    if args.length < 2 then (s, .thrown (.str "(if) requires at least 2 arguments"))
    else
      match rf (args.headD .undefined) s with
      | (s₁, .ok v) =>
        if truthy v then rf ((args.get? 1).getD .undefined) s₁
        else evalBodyF rf (args.drop 2) s₁
      | other => other
  | "when" =>
    if args.length = 0 then (s, .thrown (.str "(when) requires at least 1 argument"))
    else
      match rf (args.headD .undefined) s with
      | (s₁, .ok v) =>
        if truthy v then
          match evalArgsF rf args.tail s₁ with
          | (s₂, .vals vs) => (s₂, .ok ((vs.getLast?).getD .undefined))
          | (s₂, .stop o) => (s₂, o)
        else (s₁, .ok .null)
      | other => other
  | "not" =>
    if args.length = 0 then (s, .thrown (.str "(not) requires at least 1 argument"))
    else predRunF rf (fun v => !truthy v) args s
  | "or" => orRunF rf args s
  | "and" =>
    if args.isEmpty then (s, .ok (.bool true))
    else predRunF rf (fun v => truthy v) args s
  | "==" =>
    if args.length < 2 then (s, .thrown (.str "Macro == requires at least 2 arguments"))
    else compRunF rf (fun a b => looseEqV a b) args s
  | "===" =>
    if args.length < 2 then (s, .thrown (.str "Macro === requires at least 2 arguments"))
    else compRunF rf (fun a b => strictEqV a b) args s
  | "!=" =>
    if args.length < 2 then (s, .thrown (.str "Macro != requires at least 2 arguments"))
    else compRunF rf (fun a b => !looseEqV a b) args s
  | "!==" =>
    if args.length < 2 then (s, .thrown (.str "Macro !== requires at least 2 arguments"))
    else compRunF rf (fun a b => !strictEqV a b) args s
  | "<" =>
    if args.length < 2 then (s, .thrown (.str "Macro < requires at least 2 arguments"))
    else compRunF rf (fun a b => ltVb a b) args s
  | ">" =>
    if args.length < 2 then (s, .thrown (.str "Macro > requires at least 2 arguments"))
    else compRunF rf (fun a b => ltVb b a) args s
  | "<=" =>
    if args.length < 2 then (s, .thrown (.str "Macro <= requires at least 2 arguments"))
    else compRunF rf (fun a b => leVb a b) args s
  | ">=" =>
    if args.length < 2 then (s, .thrown (.str "Macro >= requires at least 2 arguments"))
    else compRunF rf (fun a b => leVb b a) args s
  | "is-true" => predRunF rf (fun v => strictEqV v (.bool true)) args s
  | "is-false" => predRunF rf (fun v => strictEqV v (.bool false)) args s
  | "is-null" => predRunF rf (fun v => strictEqV v .null) args s
  | "is-undefined" => predRunF rf (fun v => strictEqV v .undefined) args s
  | "is-string" => predRunF rf (fun v => jsTypeof v == "string") args s
  | "is-number" => predRunF rf (fun v => jsTypeof v == "number") args s
  | "is-boolean" => predRunF rf (fun v => jsTypeof v == "boolean") args s
  | "is-function" => predRunF rf (fun v => jsTypeof v == "function") args s
  | "is-object" => predRunF rf (fun v => jsTypeof v == "object") args s
  | _ => (s, .thrown (.str "unknown combiner"))

/-- Modelled from the spec (section 4.3, rules c to e): a Macro combiner
receives the unevaluated tail forms; a Function combiner receives the tail
forms resolved left to right; anything else is a resolution error. -/
def dispatchF (rf : Resolver) (c : Value) (tail : List Value) (s : LispState) :
    LispState × Outcome :=
  match c with
  | .mac m => applyMacF rf m tail s
  | c =>
    if isFunction c then
      match evalArgsF rf tail s with
      | (s₁, .vals vs) => applyFunF rf c .undefined vs s₁
      | (s₁, .stop o) => (s₁, o)
    else (s, .thrown (.str "not a function"))

/-- Modelled from the spec (section 4.3): `resolve` of the evaluator core,
which is not among the sources. Atoms other than symbols are self
evaluating; a symbol is looked up through the environment; the empty list
is null; a non-empty list is a combination whose head is looked up when it
is a symbol and resolved otherwise, and then dispatched. The fuel bounds
the recursion depth; every helper receives `resolve fuel` as its resolver,
so one unit of fuel is spent per nesting level of forms and per function
call. -/
def resolve : Nat → Value → LispState → LispState × Outcome
  | 0, _, s => (s, .timeout)
  | fuel + 1, form, s =>
    match form with
    | .list [] => (s, .ok .null)
    | .list (h :: tail) =>
      match h with
      | .sym name => dispatchF (resolve fuel) (envGet s s.cur name) tail s
      | _ =>
        match resolve fuel h s with
        | (s₁, .ok c) => dispatchF (resolve fuel) c tail s₁
        | other => other
    | .sym name => (s, .ok (envGet s s.cur name))
    | other => (s, .ok other)

/-- Fuelled entry points, used by the statements below. -/
def applyMac (fuel : Nat) : String → List Value → LispState → LispState × Outcome :=
  applyMacF (resolve fuel)

/-- Fuelled function application. -/
def applyFun (fuel : Nat) : Value → Value → List Value → LispState → LispState × Outcome :=
  applyFunF (resolve fuel)

/-- Fuelled try macro with the possibly mutated argument forms. -/
def tryFull (fuel : Nat) : List Value → LispState → (LispState × Outcome) × List Value :=
  tryFullF (resolve fuel)

/-- Fuelled body evaluation. -/
def evalBody (fuel : Nat) : List Value → LispState → LispState × Outcome :=
  evalBodyF (resolve fuel)

end JsLisp

namespace JsLisp

/-- Names under which the built-in macros of src/unnamed/part_000 are
registered by `defmacro`. -/
def macNames : List String :=
  ["lambda", "defun", "try", "let", "setq", "progn", "if", "when", "not",
   "or", "and", "==", "===", "!=", "!==", "<", ">", "<=", ">=",
   "is-true", "is-false", "is-null", "is-undefined", "is-string",
   "is-number", "is-boolean", "is-function", "is-object"]

/-- Modelled from the spec (sections 4.3 and 6): macros live in the
environment as Macro objects (`getfunc` fetches them with `lisp.env.get`),
and the registration of the built-ins by the evaluator core is not among
the sources; a fresh interpreter's host namespace therefore carries the
macro bindings, plus `throw` (spec section 7: user-raised errors are any
value passed to throw). -/
def initGlobal : List (String × Value) :=
  macNames.map (fun n => (n, Value.mac n)) ++ [("throw", Value.throwFn)]

/-- State of a fresh interpreter: a single root frame whose parent is the
host namespace, with `lisp.env` pointing at it. -/
def initState : LispState :=
  { frames := [{ parent := .host, symbols := [] }], globalNS := initGlobal, cur := 0 }

/-- Driver: evaluate the top-level forms in order against the root
environment, reporting the final state and outcome. -/
def runProgram (fuel : Nat) (forms : List Value) : LispState × Outcome :=
  evalBody fuel forms initState

/-- Outcome of a program, for the concrete scenarios below. -/
def runOut (fuel : Nat) (forms : List Value) : Outcome :=
  (runProgram fuel forms).2

end JsLisp

namespace JsLisp

/-- Termination witness of the environment chain walk from frame `fid`:
`some (some f)` when `f` is the nearest frame owning `name`, `some none`
when the walk reaches the host namespace without finding an owner, `none`
when the fuel runs out or a frame id dangles (which cannot happen in states
the interpreter builds). -/
def walkEnd (s : LispState) : Nat → Nat → String → Option (Option Nat)
  | 0, _, _ => none
  | k + 1, fid, name =>
    match frameAt s fid with
    | none => none
    | some fr =>
      match alookup fr.symbols name with
      | some _ => some (some fid)
      | none =>
        match fr.parent with
        | .env p => walkEnd s k p name
        | .host => some none

/-- Nearest owner of `name` along the chain from `fid`: `some (some f)`,
`some none` for the host namespace, with the standard fuel. -/
def envOwner (s : LispState) (fid : Nat) (name : String) : Option (Option Nat) :=
  walkEnd s (fid + 1) fid name

/-- Binding stored for `name` in the frame `f` itself. -/
def ownedVal (s : LispState) (f : Nat) (name : String) : Option Value :=
  (frameAt s f).bind (fun fr => alookup fr.symbols name)

/-- Decisive value at which each short-circuiting macro stops resolving:
`or` stops at the first truthy argument and returns true; `and`, `not`, the
comparison macros and the `is-*` predicates stop at the first failure and
return false. -/
def scStop (name : String) : Bool :=
  name == "or"

/-- Macros governed by the short-circuit contract of the spec. -/
def scMacs : List String :=
  ["and", "or", "not", "==", "===", "!=", "!==", "<", ">", "<=", ">=",
   "is-true", "is-false", "is-null", "is-undefined", "is-string",
   "is-number", "is-boolean", "is-function", "is-object"]

/-- Program of the frame-reuse scenario: `(let ((f (lambda (x) (lambda ()
x)))) (let ((g1 (f 1)) (d (f 2))) (g1)))`. Under one frame per lambda
object the inner closure made by `(f 1)` reads the `x` that `(f 2)` later
rebinds, so the program yields 2; under a fresh frame per call it would
yield 1. -/
def progC1 : List Value :=
  [.list [.sym "let",
    .list [.list [.sym "f",
      .list [.sym "lambda", .list [.sym "x"], .list [.sym "lambda", .list [], .sym "x"]]]],
    .list [.sym "let",
      .list [.list [.sym "g1", .list [.sym "f", .num 1]],
             .list [.sym "d", .list [.sym "f", .num 2]]],
      .list [.sym "g1"]]]]

/-- Program of the let binding-order scenario: `(let ((x 1)) (let ((x 2)
(y x)) y))`. The source let-binds `x := 2` into the fresh frame before
resolving the expression of `y`, so `y` reads 2; under outer-environment
evaluation of the binding expressions it would read the outer 1. -/
def progC2 : List Value :=
  [.list [.sym "let", .list [.list [.sym "x", .num 1]],
    .list [.sym "let",
      .list [.list [.sym "x", .num 2], .list [.sym "y", .sym "x"]],
      .sym "y"]]]

/-- Program of the error-path scenario: `(try (let ((leaked 99)) (throw 0))
(catch))` followed by the bare symbol `leaked`. The throw escapes the let
body, the let macro never runs `lisp.env = lisp.env.parent`, and after the
try the frame holding `leaked` is still current, so the second form reads
99; with restoration on the error path it would read the undefined value. -/
def progC3 : List Value :=
  [.list [.sym "try",
     .list [.sym "let", .list [.list [.sym "leaked", .num 99]],
       .list [.sym "throw", .num 0]],
     .list [.sym "catch"]],
   .sym "leaked"]

/-- State with a host namespace binding `g := null` and an empty root
frame: the binding exists (the host mapping owns the key), yet Env.has
tests `this.parent[symbol] != undefined`, which is false at null. -/
def stateC5 : LispState :=
  { frames := [{ parent := .host, symbols := [] }], globalNS := [("g", .null)], cur := 0 }

end JsLisp

namespace JsLisp

theorem walkEnd_mono {s : LispState} {k fid : Nat} {name : String} {r : Option Nat}
    (h : walkEnd s k fid name = some r) : walkEnd s (k + 1) fid name = some r := by
  induction k generalizing fid with
  | zero => simp [walkEnd] at h
  | succ k ih =>
    rw [walkEnd] at h ⊢
    cases hg : frameAt s fid with
    | none => simp [hg] at h
    | some fr =>
      simp only [hg] at h ⊢
      cases ha : alookup fr.symbols name with
      | some w => simpa [ha] using h
      | none =>
        simp only [ha] at h ⊢
        cases hp : fr.parent with
        | env p => simp only [hp] at h ⊢; exact ih h
        | host => simpa [hp] using h

theorem walkEnd_le {s : LispState} {k k' fid : Nat} {name : String} {r : Option Nat}
    (hk : k ≤ k') (h : walkEnd s k fid name = some r) : walkEnd s k' fid name = some r := by
  induction hk with
  | refl => exact h
  | step _ ih => exact walkEnd_mono ih

end JsLisp

namespace JsLisp

theorem frameAt_lt_length {s : LispState} {fid : Nat} {fr : Frame}
    (h : frameAt s fid = some fr) : fid < s.frames.length := by
  by_contra hc
  rw [frameAt, List.get?_eq_none.mpr (by omega)] at h
  exact Option.noConfusion h

theorem hasAux_of_walkEnd {s : LispState} {k fid : Nat} {name : String} {r : Option Nat}
    (h : walkEnd s k fid name = some r) :
    hasAux s k fid name =
      r.elim (looseNeqUndef ((alookup s.globalNS name).getD .undefined)) (fun _ => true) := by
  induction k generalizing fid with
  | zero => simp [walkEnd] at h
  | succ k ih =>
    rw [walkEnd] at h
    rw [hasAux]
    cases hg : frameAt s fid with
    | none => simp [hg] at h
    | some fr =>
      simp only [hg] at h ⊢
      cases ha : alookup fr.symbols name with
      | some w => simp only [ha] at h ⊢; cases h; rfl
      | none =>
        simp only [ha] at h ⊢
        cases hp : fr.parent with
        | env p => simp only [hp] at h ⊢; exact ih h
        | host => simp only [hp] at h ⊢; cases h; rfl

theorem getAux_of_walkEnd {s : LispState} {k fid : Nat} {name : String} {r : Option Nat}
    (h : walkEnd s k fid name = some r) :
    getAux s k fid name =
      r.elim ((alookup s.globalNS name).getD .undefined)
        (fun f => (ownedVal s f name).getD .undefined) := by
  induction k generalizing fid with
  | zero => simp [walkEnd] at h
  | succ k ih =>
    rw [walkEnd] at h
    rw [getAux]
    cases hg : frameAt s fid with
    | none => simp [hg] at h
    | some fr =>
      simp only [hg] at h ⊢
      cases ha : alookup fr.symbols name with
      | some w =>
        simp only [ha] at h ⊢
        cases h
        simp [ownedVal, hg, ha]
      | none =>
        rw [if_neg (by simp [truthy])]
        simp only [ha] at h
        cases hp : fr.parent with
        | env p => simp only [hp] at h ⊢; exact ih h
        | host => simp only [hp] at h ⊢; cases h; rfl

theorem setOwnAux_of_walkEnd {s : LispState} {k fid : Nat} {name : String} {r : Option Nat}
    {v : Value} (h : walkEnd s k fid name = some r) :
    setOwnAux s k fid name v =
      r.elim { s with globalNS := aset s.globalNS name v }
        (fun f => updateFrame s f name v) := by
  induction k generalizing fid with
  | zero => simp [walkEnd] at h
  | succ k ih =>
    rw [walkEnd] at h
    rw [setOwnAux]
    cases hg : frameAt s fid with
    | none => simp [hg] at h
    | some fr =>
      simp only [hg] at h ⊢
      cases ha : alookup fr.symbols name with
      | some w => simp only [ha] at h ⊢; cases h; rfl
      | none =>
        simp only [ha] at h ⊢
        cases hp : fr.parent with
        | env p => simp only [hp] at h ⊢; exact ih h
        | host => simp only [hp] at h ⊢; cases h; rfl

theorem walkEnd_owner_owns {s : LispState} {k fid f : Nat} {name : String}
    (h : walkEnd s k fid name = some (some f)) :
    ∃ fr w, frameAt s f = some fr ∧ alookup fr.symbols name = some w := by
  induction k generalizing fid with
  | zero => simp [walkEnd] at h
  | succ k ih =>
    rw [walkEnd] at h
    cases hg : frameAt s fid with
    | none => simp [hg] at h
    | some fr =>
      simp only [hg] at h
      cases ha : alookup fr.symbols name with
      | some w => simp only [ha] at h; cases h; exact ⟨fr, w, hg, ha⟩
      | none =>
        simp only [ha] at h
        cases hp : fr.parent with
        | env p => simp only [hp] at h; exact ih h
        | host => simp only [hp] at h; cases h

end JsLisp

namespace JsLisp

theorem alookup_aset_self (l : List (String × Value)) (k : String) (v : Value) :
    alookup (aset l k v) k = some v := by
  induction l with
  | nil => simp [aset, alookup]
  | cons hd tl ih =>
    obtain ⟨k', w⟩ := hd
    by_cases hk : k' = k
    · subst hk; simp [aset, alookup]
    · simp [aset, alookup, hk, ih]

theorem envGet_undotted {s : LispState} {fid : Nat} {name : String}
    (hU : splitDots name = [name]) :
    envGet s fid name = getAux s (fid + 1) fid name := by
  rw [envGet, hU]
  simp

theorem envSet_char (s : LispState) (fid : Nat) {name : String} (v : Value) {r : Option Nat}
    (hU : splitDots name = [name]) (h : envOwner s fid name = some r) :
    envSet s fid name v =
      r.elim { s with globalNS := aset s.globalNS name v }
        (fun f => updateFrame s f name v) := by
  rw [envSet, hU]
  rw [if_neg (by simp)]
  rw [envOwner] at h
  rw [envHas, hasAux_of_walkEnd h]
  cases r with
  | some f => simpa using setOwnAux_of_walkEnd h
  | none =>
    by_cases hb : looseNeqUndef ((alookup s.globalNS name).getD .undefined) = true
    · rw [if_pos (by simpa using hb)]
      simpa using setOwnAux_of_walkEnd h
    · rw [if_neg (by simpa using hb)]
      rfl

theorem walkEnd_append {s : LispState} {k fid : Nat} {name : String} {r : Option Nat}
    {fr' : Frame} (h : walkEnd s k fid name = some r) :
    walkEnd { s with frames := s.frames ++ [fr'] } k fid name = some r := by
  induction k generalizing fid with
  | zero => simp [walkEnd] at h
  | succ k ih =>
    rw [walkEnd] at h ⊢
    cases hg : frameAt s fid with
    | none => simp [hg] at h
    | some fr =>
      have hg2 : frameAt { s with frames := s.frames ++ [fr'] } fid = some fr := by
        rw [frameAt] at hg ⊢
        rw [List.get?_append (frameAt_lt_length hg)]
        exact hg
      rw [hg2]
      simp only [hg] at h
      cases ha : alookup fr.symbols name with
      | some w => simpa [ha] using h
      | none =>
        simp only [ha] at h ⊢
        cases hp : fr.parent with
        | env p => simp only [hp] at h ⊢; exact ih h
        | host => simpa [hp] using h

theorem frameAt_updateFrame_ne {s : LispState} {f fid : Nat} {name : String} {v : Value}
    (hne : fid ≠ f) : frameAt (updateFrame s f name v) fid = frameAt s fid := by
  rw [updateFrame]
  cases hg : frameAt s f with
  | none => rfl
  | some fr => exact List.get?_set_ne _ _ (Ne.symm hne)

theorem frameAt_updateFrame_self {s : LispState} {f : Nat} {name : String} {v : Value}
    {fr : Frame} (hg : frameAt s f = some fr) :
    frameAt (updateFrame s f name v) f =
      some { fr with symbols := aset fr.symbols name v } := by
  rw [updateFrame, hg]
  exact List.get?_set_eq_of_lt _ (frameAt_lt_length hg)

end JsLisp

namespace JsLisp

theorem walkEnd_frames_eq (s' s : LispState) (hf : s'.frames = s.frames)
    (k fid : Nat) (name : String) : walkEnd s' k fid name = walkEnd s k fid name := by
  induction k generalizing fid with
  | zero => rfl
  | succ k ih =>
    rw [walkEnd, walkEnd]
    have hg : frameAt s' fid = frameAt s fid := by rw [frameAt, frameAt, hf]
    rw [hg]
    cases hfr : frameAt s fid with
    | none => rfl
    | some fr =>
      dsimp only
      cases ha : alookup fr.symbols name with
      | some w => rfl
      | none =>
        dsimp only
        cases hp : fr.parent with
        | env p => exact ih p
        | host => rfl

theorem walkEnd_updateFrame {s : LispState} {k fid f : Nat} {name : String} {v : Value}
    (h : walkEnd s k fid name = some (some f)) :
    walkEnd (updateFrame s f name v) k fid name = some (some f) := by
  induction k generalizing fid with
  | zero => simp [walkEnd] at h
  | succ k ih =>
    rw [walkEnd] at h ⊢
    cases hg : frameAt s fid with
    | none => simp [hg] at h
    | some fr =>
      simp only [hg] at h
      by_cases hfid : fid = f
      · subst hfid
        rw [frameAt_updateFrame_self hg]
        cases ha : alookup fr.symbols name with
        | some w => simp [alookup_aset_self]
        | none =>
          simp only [ha] at h
          cases hp : fr.parent with
          | env p =>
            simp only [hp] at h
            obtain ⟨fr', w, hg', ha'⟩ := walkEnd_owner_owns h
            rw [hg] at hg'
            cases hg'
            rw [ha] at ha'
            exact Option.noConfusion ha'
          | host => simp [hp] at h
      · rw [frameAt_updateFrame_ne hfid, hg]
        cases ha : alookup fr.symbols name with
        | some w => simp only [ha] at h ⊢; cases h; exact absurd rfl hfid
        | none =>
          simp only [ha] at h ⊢
          cases hp : fr.parent with
          | env p => simp only [hp] at h ⊢; exact ih h
          | host => simp [hp] at h

theorem predRunF_append {rf : Resolver} {f : Value → Bool} {P Q : List Value}
    {s s₁ : LispState} (h : predRunF rf f P s = (s₁, .ok (.bool false))) :
    predRunF rf f (P ++ Q) s = (s₁, .ok (.bool false)) := by
  induction P generalizing s with
  | nil => simp [predRunF] at h
  | cons a P ih =>
    rw [predRunF] at h
    rw [List.cons_append, predRunF]
    cases hr : rf a s with
    | mk s' o =>
      rw [hr] at h
      cases o with
      | ok v =>
        dsimp only at h ⊢
        by_cases hv : f v = true
        · rw [if_pos hv] at h; rw [if_pos hv]; exact ih h
        · rw [if_neg hv] at h; rw [if_neg hv]; exact h
      | thrown e => simp at h
      | timeout => simp at h

theorem orRunF_append {rf : Resolver} {P Q : List Value} {s s₁ : LispState}
    (h : orRunF rf P s = (s₁, .ok (.bool true))) :
    orRunF rf (P ++ Q) s = (s₁, .ok (.bool true)) := by
  induction P generalizing s with
  | nil => simp [orRunF] at h
  | cons a P ih =>
    rw [orRunF] at h
    rw [List.cons_append, orRunF]
    cases hr : rf a s with
    | mk s' o =>
      rw [hr] at h
      cases o with
      | ok v =>
        dsimp only at h ⊢
        by_cases hv : truthy v = true
        · rw [if_pos hv] at h; rw [if_pos hv]; exact h
        · rw [if_neg hv] at h; rw [if_neg hv]; exact ih h
      | thrown e => simp at h
      | timeout => simp at h

theorem compAuxF_append {rf : Resolver} {f : Value → Value → Bool} {prev : Value}
    {P Q : List Value} {s s₁ : LispState}
    (h : compAuxF rf f prev P s = (s₁, .ok (.bool false))) :
    compAuxF rf f prev (P ++ Q) s = (s₁, .ok (.bool false)) := by
  induction P generalizing s prev with
  | nil => simp [compAuxF] at h
  | cons b P ih =>
    rw [compAuxF] at h
    rw [List.cons_append, compAuxF]
    cases hr : rf b s with
    | mk s' o =>
      rw [hr] at h
      cases o with
      | ok w =>
        dsimp only at h ⊢
        by_cases hv : f prev w = true
        · rw [if_pos hv] at h; rw [if_pos hv]; exact ih h
        · rw [if_neg hv] at h; rw [if_neg hv]; exact h
      | thrown e => simp at h
      | timeout => simp at h

theorem compRunF_append {rf : Resolver} {f : Value → Value → Bool}
    {P Q : List Value} {s s₁ : LispState}
    (h : compRunF rf f P s = (s₁, .ok (.bool false))) :
    compRunF rf f (P ++ Q) s = (s₁, .ok (.bool false)) := by
  cases P with
  | nil => simp [compRunF] at h
  | cons a P =>
    rw [compRunF] at h
    rw [List.cons_append, compRunF]
    cases hr : rf a s with
    | mk s' o =>
      rw [hr] at h
      cases o with
      | ok v => exact compAuxF_append h
      | thrown e => simp at h
      | timeout => simp at h

end JsLisp

namespace JsLisp

/-- C6: for `and`, `or`, `not`, every comparison macro (`==`, `===`, `!=`,
`!==`, `<`, `>`, `<=`, `>=`) and every `is-*` predicate, argument forms are
resolved left to right only up to the decisive position: whenever the macro
returns its decisive value (true for `or`, false for the others) on the
forms `P`, appending any further argument forms `Q` changes neither the
returned value nor the resulting state, whatever resolver is in effect —
so a side effect such as a `setq` placed past the decisive position never
fires and leaves no trace in the environment. -/
theorem shortCircuit_decisive_append :
    ∀ name ∈ scMacs, ∀ (rf : Resolver) (P Q : List Value) (s s₁ : LispState),
      applyMacF rf name P s = (s₁, .ok (.bool (scStop name))) →
      applyMacF rf name (P ++ Q) s = (s₁, .ok (.bool (scStop name))) := by
  intro name hmem rf P Q s s₁ h
  fin_cases hmem
  · -- the and macro
    cases P with
    | nil => simp [applyMacF, scStop] at h
    | cons a1 P1 =>
      have h9 : predRunF rf (fun v => truthy v) (a1 :: P1) s = (s₁, Outcome.ok (Value.bool false)) := h
      show predRunF rf (fun v => truthy v) ((a1 :: P1) ++ Q) s = (s₁, Outcome.ok (Value.bool false))
      exact predRunF_append h9
  · -- the or macro
    have h9 : orRunF rf P s = (s₁, Outcome.ok (Value.bool true)) := h
    show orRunF rf (P ++ Q) s = (s₁, Outcome.ok (Value.bool true))
    exact orRunF_append h9
  · -- the not macro
    cases P with
    | nil => simp [applyMacF, scStop] at h
    | cons a1 P1 =>
      have h9 : predRunF rf (fun v => !truthy v) (a1 :: P1) s = (s₁, Outcome.ok (Value.bool false)) := h
      show predRunF rf (fun v => !truthy v) ((a1 :: P1) ++ Q) s = (s₁, Outcome.ok (Value.bool false))
      exact predRunF_append h9
  · -- the == macro
    cases P with
    | nil => simp [applyMacF, scStop] at h
    | cons a1 P1 =>
      cases P1 with
      | nil => simp [applyMacF, scStop] at h
      | cons a2 P2 =>
        have h9 : compRunF rf (fun x y => looseEqV x y) (a1 :: a2 :: P2) s = (s₁, Outcome.ok (Value.bool false)) := h
        show compRunF rf (fun x y => looseEqV x y) ((a1 :: a2 :: P2) ++ Q) s = (s₁, Outcome.ok (Value.bool false))
        exact compRunF_append h9
  · -- the === macro
    cases P with
    | nil => simp [applyMacF, scStop] at h
    | cons a1 P1 =>
      cases P1 with
      | nil => simp [applyMacF, scStop] at h
      | cons a2 P2 =>
        have h9 : compRunF rf (fun x y => strictEqV x y) (a1 :: a2 :: P2) s = (s₁, Outcome.ok (Value.bool false)) := h
        show compRunF rf (fun x y => strictEqV x y) ((a1 :: a2 :: P2) ++ Q) s = (s₁, Outcome.ok (Value.bool false))
        exact compRunF_append h9
  · -- the != macro
    cases P with
    | nil => simp [applyMacF, scStop] at h
    | cons a1 P1 =>
      cases P1 with
      | nil => simp [applyMacF, scStop] at h
      | cons a2 P2 =>
        have h9 : compRunF rf (fun x y => !looseEqV x y) (a1 :: a2 :: P2) s = (s₁, Outcome.ok (Value.bool false)) := h
        show compRunF rf (fun x y => !looseEqV x y) ((a1 :: a2 :: P2) ++ Q) s = (s₁, Outcome.ok (Value.bool false))
        exact compRunF_append h9
  · -- the !== macro
    cases P with
    | nil => simp [applyMacF, scStop] at h
    | cons a1 P1 =>
      cases P1 with
      | nil => simp [applyMacF, scStop] at h
      | cons a2 P2 =>
        have h9 : compRunF rf (fun x y => !strictEqV x y) (a1 :: a2 :: P2) s = (s₁, Outcome.ok (Value.bool false)) := h
        show compRunF rf (fun x y => !strictEqV x y) ((a1 :: a2 :: P2) ++ Q) s = (s₁, Outcome.ok (Value.bool false))
        exact compRunF_append h9
  · -- the < macro
    cases P with
    | nil => simp [applyMacF, scStop] at h
    | cons a1 P1 =>
      cases P1 with
      | nil => simp [applyMacF, scStop] at h
      | cons a2 P2 =>
        have h9 : compRunF rf (fun x y => ltVb x y) (a1 :: a2 :: P2) s = (s₁, Outcome.ok (Value.bool false)) := h
        show compRunF rf (fun x y => ltVb x y) ((a1 :: a2 :: P2) ++ Q) s = (s₁, Outcome.ok (Value.bool false))
        exact compRunF_append h9
  · -- the > macro
    cases P with
    | nil => simp [applyMacF, scStop] at h
    | cons a1 P1 =>
      cases P1 with
      | nil => simp [applyMacF, scStop] at h
      | cons a2 P2 =>
        have h9 : compRunF rf (fun x y => ltVb y x) (a1 :: a2 :: P2) s = (s₁, Outcome.ok (Value.bool false)) := h
        show compRunF rf (fun x y => ltVb y x) ((a1 :: a2 :: P2) ++ Q) s = (s₁, Outcome.ok (Value.bool false))
        exact compRunF_append h9
  · -- the <= macro
    cases P with
    | nil => simp [applyMacF, scStop] at h
    | cons a1 P1 =>
      cases P1 with
      | nil => simp [applyMacF, scStop] at h
      | cons a2 P2 =>
        have h9 : compRunF rf (fun x y => leVb x y) (a1 :: a2 :: P2) s = (s₁, Outcome.ok (Value.bool false)) := h
        show compRunF rf (fun x y => leVb x y) ((a1 :: a2 :: P2) ++ Q) s = (s₁, Outcome.ok (Value.bool false))
        exact compRunF_append h9
  · -- the >= macro
    cases P with
    | nil => simp [applyMacF, scStop] at h
    | cons a1 P1 =>
      cases P1 with
      | nil => simp [applyMacF, scStop] at h
      | cons a2 P2 =>
        have h9 : compRunF rf (fun x y => leVb y x) (a1 :: a2 :: P2) s = (s₁, Outcome.ok (Value.bool false)) := h
        show compRunF rf (fun x y => leVb y x) ((a1 :: a2 :: P2) ++ Q) s = (s₁, Outcome.ok (Value.bool false))
        exact compRunF_append h9
  · -- the is-true predicate
    have h9 : predRunF rf (fun v => strictEqV v (.bool true)) P s = (s₁, Outcome.ok (Value.bool false)) := h
    show predRunF rf (fun v => strictEqV v (.bool true)) (P ++ Q) s = (s₁, Outcome.ok (Value.bool false))
    exact predRunF_append h9
  · -- the is-false predicate
    have h9 : predRunF rf (fun v => strictEqV v (.bool false)) P s = (s₁, Outcome.ok (Value.bool false)) := h
    show predRunF rf (fun v => strictEqV v (.bool false)) (P ++ Q) s = (s₁, Outcome.ok (Value.bool false))
    exact predRunF_append h9
  · -- the is-null predicate
    have h9 : predRunF rf (fun v => strictEqV v .null) P s = (s₁, Outcome.ok (Value.bool false)) := h
    show predRunF rf (fun v => strictEqV v .null) (P ++ Q) s = (s₁, Outcome.ok (Value.bool false))
    exact predRunF_append h9
  · -- the is-undefined predicate
    have h9 : predRunF rf (fun v => strictEqV v .undefined) P s = (s₁, Outcome.ok (Value.bool false)) := h
    show predRunF rf (fun v => strictEqV v .undefined) (P ++ Q) s = (s₁, Outcome.ok (Value.bool false))
    exact predRunF_append h9
  · -- the is-string predicate
    have h9 : predRunF rf (fun v => jsTypeof v == "string") P s = (s₁, Outcome.ok (Value.bool false)) := h
    show predRunF rf (fun v => jsTypeof v == "string") (P ++ Q) s = (s₁, Outcome.ok (Value.bool false))
    exact predRunF_append h9
  · -- the is-number predicate
    have h9 : predRunF rf (fun v => jsTypeof v == "number") P s = (s₁, Outcome.ok (Value.bool false)) := h
    show predRunF rf (fun v => jsTypeof v == "number") (P ++ Q) s = (s₁, Outcome.ok (Value.bool false))
    exact predRunF_append h9
  · -- the is-boolean predicate
    have h9 : predRunF rf (fun v => jsTypeof v == "boolean") P s = (s₁, Outcome.ok (Value.bool false)) := h
    show predRunF rf (fun v => jsTypeof v == "boolean") (P ++ Q) s = (s₁, Outcome.ok (Value.bool false))
    exact predRunF_append h9
  · -- the is-function predicate
    have h9 : predRunF rf (fun v => jsTypeof v == "function") P s = (s₁, Outcome.ok (Value.bool false)) := h
    show predRunF rf (fun v => jsTypeof v == "function") (P ++ Q) s = (s₁, Outcome.ok (Value.bool false))
    exact predRunF_append h9
  · -- the is-object predicate
    have h9 : predRunF rf (fun v => jsTypeof v == "object") P s = (s₁, Outcome.ok (Value.bool false)) := h
    show predRunF rf (fun v => jsTypeof v == "object") (P ++ Q) s = (s₁, Outcome.ok (Value.bool false))
    exact predRunF_append h9

end JsLisp

namespace JsLisp

/-- C1 counterexample: in `(let ((f (lambda (x) (lambda () x)))) (let ((g1
(f 1)) (d (f 2))) (g1)))` the closure `g1` produced by `(f 1)` reads 2, the
value `(f 2)` later let-bound for `x` in the one frame `f` carries: calls
do not get a fresh child frame, they re-enter the frame allocated at the
lambda's construction. Under the claimed fresh-frame-per-call semantics
`g1` would close over the frame of the first call and the program would
yield 1. -/
theorem lambda_fresh_frame_cex :
    runOut 100 progC1 = .ok (.num 2) ∧ runOut 100 progC1 ≠ .ok (.num 1) := by
  have h : runOut 100 progC1 = .ok (.num 2) := rfl
  refine ⟨h, ?_⟩
  rw [h]
  simp

/-- C1 (amended): a lambda form allocates exactly one child frame of the
construction-site environment, at construction time, and the closure value
stores that frame's id; every call re-enters that same frame, rebinding
`this` to the receiver and the parameters positionally in place (a missing
argument binds the undefined value, surplus arguments are ignored since the
loop runs over the parameter list), evaluates the body forms in order,
returns the last value (null for an empty body), and restores the prior
frame on normal return. Mutations the body makes through `setq` act on the
frame chain hanging off the construction environment, hence remain visible
to the enclosing scope. -/
theorem lambda_one_frame_per_object :
    (∀ (rf : Resolver) (arglist : Value) (body : List Value) (s : LispState),
       applyMacF rf "lambda" (arglist :: body) s =
         ({ s with frames := s.frames ++ [{ parent := .env s.cur, symbols := [] }] },
          .ok (.closure s.frames.length (paramNames arglist) body)))
    ∧ (∀ (rf : Resolver) (fid : Nat) (params : List String) (body : List Value)
         (recv : Value) (args : List Value) (s : LispState),
       applyFunF rf (.closure fid params body) recv args s =
         (match evalBodyF rf body
             (bindParamsLet fid params args
               (envLet { s with cur := fid } fid "this" recv)) with
          | (s₂, .ok v) => ({ s₂ with cur := s.cur }, .ok v)
          | other => other))
    ∧ (∀ (fid : Nat) (p : String) (ps : List String) (args : List Value) (s : LispState),
       bindParamsLet fid (p :: ps) args s =
         bindParamsLet fid ps args.tail (envLet s fid p (args.headD .undefined)))
    ∧ (∀ (fid : Nat) (args : List Value) (s : LispState),
       bindParamsLet fid [] args s = s) := by
  exact ⟨fun _ _ _ _ => rfl, fun _ _ _ _ _ _ _ => rfl, fun _ _ _ _ _ => rfl, fun _ _ _ => rfl⟩

/-- C2 counterexample: with an outer binding `x := 1`, the program `(let ((x
2) (y x)) y)` yields 2, because the let macro pushes the fresh frame first
and resolves every binding expression against it, so the expression of `y`
already sees the earlier binding `x := 2` of the same letset. Under the
claimed outer-environment evaluation it would yield 1. -/
theorem let_outer_env_cex :
    runOut 100 progC2 = .ok (.num 2) ∧ runOut 100 progC2 ≠ .ok (.num 1) := by
  have h : runOut 100 progC2 = .ok (.num 2) := rfl
  refine ⟨h, ?_⟩
  rw [h]
  simp

/-- C2 (amended): `(let ((name expr) …) body…)` pushes the fresh frame
first and only then walks the binding list; each binding's expression is
resolved with the fresh frame current — so bindings established earlier in
the same letset are visible to later expressions and shadow equally named
outer bindings — and each result is let-bound into the frame immediately;
the body forms are then evaluated in order, the last value is returned and
the frame is popped on normal exit. -/
theorem let_binds_in_new_frame :
    (∀ (rf : Resolver) (entries bodyForms : List Value) (s : LispState),
       applyMacF rf "let" (.list entries :: bodyForms) s =
         (match letBindF rf entries
             { s with frames := s.frames ++ [{ parent := .env s.cur, symbols := [] }], cur := s.frames.length } with
          | (s₂, .ok _) =>
            (match evalBodyF rf bodyForms s₂ with
             | (s₃, .ok v) => (popEnv s₃, .ok v)
             | other => other)
          | other => other))
    ∧ (∀ (rf : Resolver) (nm : String) (expr : Value) (rest : List Value) (s : LispState),
       letBindF rf (.list [.sym nm, expr] :: rest) s =
         (match rf expr s with
          | (s₁, .ok v) => letBindF rf rest (envLet s₁ s₁.cur nm v)
          | other => other)) := by
  exact ⟨fun _ _ _ _ => rfl, fun _ _ _ _ _ => rfl⟩

/-- C3 counterexample: in `(try (let ((leaked 99)) (throw 0)) (catch))`
followed by the bare symbol `leaked`, the throw escapes the let body before
`lisp.env = lisp.env.parent` runs, so after the try the let frame is still
the current environment and the final lookup yields 99. Under the claimed
restoration on every exit path the binding would be invisible and the
lookup would yield the undefined value. -/
theorem env_restore_error_cex :
    runOut 100 progC3 = .ok (.num 99) ∧ runOut 100 progC3 ≠ .ok .undefined := by
  have h : runOut 100 progC3 = .ok (.num 99) := rfl
  refine ⟨h, ?_⟩
  rw [h]
  simp

/-- C3 (amended): the outer environment is restored on the normal exit path
only. When the body of a lambda closure returns a value, the caller's frame
is reinstated, and when a let body returns a value, the current frame is
popped to its parent; but when a throw propagates out of the parameter
binding, the let bindings or either body, the state is handed back exactly
as it was at the throw, with the inner frame still current — neither the
lambda nor the let macro restores the environment on the error path. -/
theorem env_restore_normal_path_only :
    (∀ (rf : Resolver) (fid : Nat) (params : List String) (body : List Value)
       (recv : Value) (args : List Value) (s s₂ : LispState) (v : Value),
       evalBodyF rf body (bindParamsLet fid params args
           (envLet { s with cur := fid } fid "this" recv)) = (s₂, .ok v) →
       applyFunF rf (.closure fid params body) recv args s = ({ s₂ with cur := s.cur }, .ok v))
    ∧ (∀ (rf : Resolver) (fid : Nat) (params : List String) (body : List Value)
       (recv : Value) (args : List Value) (s s₂ : LispState) (e : Value),
       evalBodyF rf body (bindParamsLet fid params args
           (envLet { s with cur := fid } fid "this" recv)) = (s₂, .thrown e) →
       applyFunF rf (.closure fid params body) recv args s = (s₂, .thrown e))
    ∧ (∀ (rf : Resolver) (entries bodyForms : List Value) (s s₂ s₃ : LispState)
       (w v : Value),
       letBindF rf entries
           { s with frames := s.frames ++ [{ parent := .env s.cur, symbols := [] }], cur := s.frames.length } = (s₂, .ok w) →
       evalBodyF rf bodyForms s₂ = (s₃, .ok v) →
       applyMacF rf "let" (.list entries :: bodyForms) s = (popEnv s₃, .ok v))
    ∧ (∀ (rf : Resolver) (entries bodyForms : List Value) (s s₂ : LispState) (e : Value),
       letBindF rf entries
           { s with frames := s.frames ++ [{ parent := .env s.cur, symbols := [] }], cur := s.frames.length } = (s₂, .thrown e) →
       applyMacF rf "let" (.list entries :: bodyForms) s = (s₂, .thrown e))
    ∧ (∀ (rf : Resolver) (entries bodyForms : List Value) (s s₂ s₃ : LispState)
       (w e : Value),
       letBindF rf entries
           { s with frames := s.frames ++ [{ parent := .env s.cur, symbols := [] }], cur := s.frames.length } = (s₂, .ok w) →
       evalBodyF rf bodyForms s₂ = (s₃, .thrown e) →
       applyMacF rf "let" (.list entries :: bodyForms) s = (s₃, .thrown e)) := by
  refine ⟨?_, ?_, ?_, ?_, ?_⟩
  · intro rf fid params body recv args s s₂ v h
    have hh : applyFunF rf (.closure fid params body) recv args s =
        (match evalBodyF rf body (bindParamsLet fid params args
            (envLet { s with cur := fid } fid "this" recv)) with
         | (s₂, .ok v) => ({ s₂ with cur := s.cur }, .ok v)
         | other => other) := rfl
    rw [hh, h]
  · intro rf fid params body recv args s s₂ e h
    have hh : applyFunF rf (.closure fid params body) recv args s =
        (match evalBodyF rf body (bindParamsLet fid params args
            (envLet { s with cur := fid } fid "this" recv)) with
         | (s₂, .ok v) => ({ s₂ with cur := s.cur }, .ok v)
         | other => other) := rfl
    rw [hh, h]
  · intro rf entries bodyForms s s₂ s₃ w v h1 h2
    have hh : applyMacF rf "let" (.list entries :: bodyForms) s =
        (match letBindF rf entries
            { s with frames := s.frames ++ [{ parent := .env s.cur, symbols := [] }], cur := s.frames.length } with
         | (s₂, .ok _) =>
           (match evalBodyF rf bodyForms s₂ with
            | (s₃, .ok v) => (popEnv s₃, .ok v)
            | other => other)
         | other => other) := rfl
    rw [hh, h1]
    dsimp only
    rw [h2]
  · intro rf entries bodyForms s s₂ e h1
    have hh : applyMacF rf "let" (.list entries :: bodyForms) s =
        (match letBindF rf entries
            { s with frames := s.frames ++ [{ parent := .env s.cur, symbols := [] }], cur := s.frames.length } with
         | (s₂, .ok _) =>
           (match evalBodyF rf bodyForms s₂ with
            | (s₃, .ok v) => (popEnv s₃, .ok v)
            | other => other)
         | other => other) := rfl
    rw [hh, h1]
  · intro rf entries bodyForms s s₂ s₃ w e h1 h2
    have hh : applyMacF rf "let" (.list entries :: bodyForms) s =
        (match letBindF rf entries
            { s with frames := s.frames ++ [{ parent := .env s.cur, symbols := [] }], cur := s.frames.length } with
         | (s₂, .ok _) =>
           (match evalBodyF rf bodyForms s₂ with
            | (s₃, .ok v) => (popEnv s₃, .ok v)
            | other => other)
         | other => other) := rfl
    rw [hh, h1]
    dsimp only
    rw [h2]

end JsLisp

namespace JsLisp

/-- C4: `(setq name expr)` for an undotted name resolves `expr` to `v` and
then assigns through Env.set: when the chain walk from the current frame
finds a nearest owner (`envOwner … = some (some f)`), that binding is
rewritten in place inside frame `f`; when no frame owns the name
(`envOwner … = some none`), the binding is created in the host namespace —
the frame heap, and in particular the innermost frame, is left untouched.
In both cases the macro returns the evaluated value. -/
theorem setq_nearest_or_host :
    ∀ (rf : Resolver) (nm : String) (expr : Value) (s s₁ : LispState) (v : Value)
      (r : Option Nat),
      splitDots nm = [nm] →
      rf expr s = (s₁, .ok v) →
      envOwner s₁ s₁.cur nm = some r →
      applyMacF rf "setq" [.sym nm, expr] s =
        (r.elim { s₁ with globalNS := aset s₁.globalNS nm v }
           (fun f => updateFrame s₁ f nm v), .ok v) := by
  intro rf nm expr s s₁ v r hU hrf hown
  have hh : applyMacF rf "setq" [.sym nm, expr] s =
      (match rf expr s with
       | (s₁, .ok v) => (envSet s₁ s₁.cur (toName (.sym nm)) v, .ok v)
       | other => other) := rfl
  rw [hh, hrf]
  dsimp only
  rw [show toName (Value.sym nm) = nm from rfl, envSet_char _ _ _ hU hown]

/-- C4 witness: in the fresh interpreter state no frame owns `x`, so
`(setq x 7)` creates `x := 7` in the host namespace and returns 7. -/
theorem setq_nearest_or_host_witness :
    applyMacF (resolve 5) "setq" [.sym "x", .num 7] initState
      = ({ initState with globalNS := aset initState.globalNS "x" (.num 7) }, .ok (.num 7)) :=
  setq_nearest_or_host (resolve 5) "x" (.num 7) initState initState (.num 7) none
    rfl rfl rfl

/-- C5 counterexample: in a state whose host namespace owns the key `g`
with the stored value null, the binding exists, yet Env.has walks to the
host namespace branch and tests `this.parent[symbol] != undefined`, which
is false at null — `has` reports the symbol absent although its binding is
present, so existence at the host namespace is judged by value, not by
ownership of the key. -/
theorem has_host_value_based_cex :
    envHas stateC5 0 "g" = false ∧ alookup stateC5.globalNS "g" = some .null :=
  ⟨rfl, rfl⟩

/-- C5 (amended): within environment frames, existence is judged by key
ownership and not by value truthiness — when the nearest owner of a name is
a frame, `get` returns the stored value even when it is falsy or undefined
instead of falling through to an outer frame, and `has` reports true. At
the terminal host namespace, however, `get` still returns the stored value,
but `has` tests the value against undefined under loose comparison, so a
host binding holding null or undefined is reported absent. -/
theorem lookup_ownership_in_frames :
    ∀ (s : LispState) (fid f : Nat) (name : String) (v : Value),
      splitDots name = [name] →
      ((envOwner s fid name = some (some f) → ownedVal s f name = some v →
          envGet s fid name = v ∧ envHas s fid name = true)
       ∧ (envOwner s fid name = some none →
          envGet s fid name = (alookup s.globalNS name).getD .undefined
            ∧ envHas s fid name = looseNeqUndef ((alookup s.globalNS name).getD .undefined))) := by
  intro s fid f name v hU
  constructor
  · intro hown hv
    constructor
    · rw [envGet_undotted hU, getAux_of_walkEnd hown]
      dsimp only [Option.elim]
      rw [hv]
      rfl
    · rw [envHas, hasAux_of_walkEnd hown]
      rfl
  · intro hown
    constructor
    · rw [envGet_undotted hU, getAux_of_walkEnd hown]
      rfl
    · rw [envHas, hasAux_of_walkEnd hown]
      rfl

/-- C5 witness: a root frame owning `y` with the falsy stored value false:
`get` returns false without falling through and `has` reports true. -/
theorem lookup_ownership_in_frames_witness :
    envGet { frames := [{ parent := .host, symbols := [("y", Value.bool false)] }], globalNS := [], cur := 0 } 0 "y" = .bool false
    ∧ envHas { frames := [{ parent := .host, symbols := [("y", Value.bool false)] }], globalNS := [], cur := 0 } 0 "y" = true :=
  (lookup_ownership_in_frames
      { frames := [{ parent := .host, symbols := [("y", Value.bool false)] }], globalNS := [], cur := 0 } 0 0 "y" (.bool false) rfl).1 rfl rfl

end JsLisp

namespace JsLisp

/-- C6 witness: `(or t (setq x 10))` is decided at the first argument; the
trailing setq form is never resolved and the state is untouched. -/
theorem shortCircuit_decisive_append_witness :
    applyMacF (resolve 5) "or"
        ([.bool true] ++ [.list [.sym "setq", .sym "x", .num 10]]) initState
      = (initState, .ok (.bool true)) :=
  shortCircuit_decisive_append "or" (by simp [scMacs]) (resolve 5) [.bool true]
    [.list [.sym "setq", .sym "x", .num 10]] initState initState rfl

theorem tryFullF_no_catch {rf : Resolver} {args : List Value} {s : LispState}
    (hd : tryDetect args = none) :
    tryFullF rf args s =
      ((match tryRunF rf args .null s with
        | (t, .done v) => (t, .ok v)
        | (t, .threw _ e) => (t, .thrown e)
        | (t, .tmo) => (t, .timeout)), args) := by
  unfold tryFullF
  rw [hd]
  rcases tryRunF rf args .null s with ⟨t, o⟩
  cases o <;> rfl

theorem tryFullF_with_catch {rf : Resolver} {args body tail : List Value} {s : LispState}
    (hd : tryDetect args = some (body, tail)) :
    tryFullF rf args s =
      (match tryRunF rf body .null s with
       | (s₁, .done v) => ((s₁, .ok v), args)
       | (s₁, .threw ret e) =>
         ((match rf (convertCatch tail) s₁ with
           | (s₂, .ok fv) =>
             (match applyFunF rf fv .undefined [e] s₂ with
              | (s₃, .ok _) => (s₃, .ok ret)
              | other => other)
           | other => other), body ++ [convertCatch tail])
       | (s₁, .tmo) => ((s₁, .timeout), args)) := by
  unfold tryFullF
  rw [hd]

/-- C7: evaluating `(try expr… (catch (e) handler…))` runs the body forms in
order; when one of them throws and the trailing argument is a list headed
by the symbol `catch`, that clause is converted into a lambda form — with
an empty parameter list assumed when the clause is the bare `catch` symbol
— which is resolved and invoked with the thrown value as its single
argument; when no catch clause is detected the thrown value is rethrown to
the caller, and when the body completes no handler runs. -/
theorem try_catch_clause_semantics :
    ∀ (rf : Resolver) (args body tail : List Value) (s s₁ : LispState) (ret e v : Value),
      ((tryDetect args = none → tryRunF rf args .null s = (s₁, .threw ret e) →
         (tryFullF rf args s).1 = (s₁, .thrown e))
       ∧ (tryDetect args = some (body, tail) → tryRunF rf body .null s = (s₁, .done v) →
         (tryFullF rf args s).1 = (s₁, .ok v))
       ∧ (tryDetect args = some (body, tail) → tryRunF rf body .null s = (s₁, .threw ret e) →
         (tryFullF rf args s).1 =
           (match rf (convertCatch tail) s₁ with
            | (s₂, .ok fv) =>
              (match applyFunF rf fv .undefined [e] s₂ with
               | (s₃, .ok _) => (s₃, .ok ret)
               | other => other)
            | other => other))
       ∧ convertCatch [] = .list [.sym "lambda", .list []]
       ∧ (∀ (arglist : Value) (handler : List Value),
            convertCatch (arglist :: handler) = .list (.sym "lambda" :: arglist :: handler))) := by
  intro rf args body tail s s₁ ret e v
  refine ⟨?_, ?_, ?_, rfl, fun _ _ => rfl⟩
  · intro hd hr
    rw [tryFullF_no_catch hd, hr]
  · intro hd hr
    rw [tryFullF_with_catch hd, hr]
  · intro hd hr
    rw [tryFullF_with_catch hd, hr]

/-- C7 witness: `(try (throw 0) (catch))` detects the bare catch clause,
converts it to `(lambda ())` and invokes it with the thrown 0. -/
theorem try_catch_clause_semantics_witness :
    (tryFullF (resolve 5) [.list [.sym "throw", .num 0], .list [.sym "catch"]] initState).1
      = (match resolve 5 (convertCatch []) initState with
         | (s₂, .ok fv) =>
           (match applyFunF (resolve 5) fv .undefined [.num 0] s₂ with
            | (s₃, .ok _) => (s₃, .ok .null)
            | other => other)
         | other => other) :=
  ((try_catch_clause_semantics (resolve 5)
      [.list [.sym "throw", .num 0], .list [.sym "catch"]]
      [.list [.sym "throw", .num 0]] [] initState initState
      .null (.num 0) .undefined).2.2.1) rfl rfl

/-- C9: the value of a try form is the value of the last body form that
completed before any throw: the body loop starts with `ret = null` — so a
try with no body forms, or whose first form throws, reports null — each
completed form overwrites `ret` with its value, and when the catch handler
runs its return value is discarded: the try yields `ret`, whatever the
handler returned. -/
theorem try_result_value :
    (∀ (rf : Resolver) (s : LispState), tryRunF rf [] .null s = (s, .done .null))
    ∧ (∀ (rf : Resolver) (f : Value) (rest : List Value) (s s₁ : LispState) (e : Value),
        rf f s = (s₁, .thrown e) →
        tryRunF rf (f :: rest) .null s = (s₁, .threw .null e))
    ∧ (∀ (rf : Resolver) (f : Value) (rest : List Value) (ret : Value)
        (s s₁ : LispState) (v : Value),
        rf f s = (s₁, .ok v) →
        tryRunF rf (f :: rest) ret s = tryRunF rf rest v s₁)
    ∧ (∀ (rf : Resolver) (args body tail : List Value) (s s₁ s₂ s₃ : LispState)
        (ret e fv w : Value),
        tryDetect args = some (body, tail) →
        tryRunF rf body .null s = (s₁, .threw ret e) →
        rf (convertCatch tail) s₁ = (s₂, .ok fv) →
        applyFunF rf fv .undefined [e] s₂ = (s₃, .ok w) →
        (tryFullF rf args s).1 = (s₃, .ok ret)) := by
  refine ⟨fun _ _ => rfl, ?_, ?_, ?_⟩
  · intro rf f rest s s₁ e h
    rw [tryRunF, h]
  · intro rf f rest ret s s₁ v h
    rw [tryRunF, h]
  · intro rf args body tail s s₁ s₂ s₃ ret e fv w hd hr hc ha
    rw [tryFullF_with_catch hd, hr]
    dsimp only
    rw [hc]
    dsimp only
    rw [ha]

/-- C9 witness: a throw in the first body form reports `ret = null`. -/
theorem try_result_value_witness :
    tryRunF (resolve 5) [.list [.sym "throw", .num 3]] .null initState
      = (initState, .threw .null (.num 3)) :=
  (try_result_value).2.1 (resolve 5) (.list [.sym "throw", .num 3]) [] initState
    initState (.num 3) rfl

/-- C10: when the catch clause of a try form fires, the form itself is
mutated: the argument list the macro leaves behind carries, in place of the
catch clause, the clause rewritten into a lambda form (head symbol replaced
by `lambda`, an empty parameter list pushed when the clause was the bare
`catch`). On the rewritten argument list the catch detection fails, so a
subsequent evaluation of the same form object treats the former clause as
an ordinary body expression and rethrows any error instead of catching
it. -/
theorem try_mutates_catch_clause :
    ∀ (rf : Resolver) (args body tail : List Value) (s s₁ : LispState) (ret e : Value),
      tryDetect args = some (body, tail) →
      tryRunF rf body .null s = (s₁, .threw ret e) →
      ((tryFullF rf args s).2 = body ++ [convertCatch tail]
       ∧ convertCatch tail = .list (.sym "lambda" :: (if tail.isEmpty then [.list []] else tail))
       ∧ tryDetect (body ++ [convertCatch tail]) = none
       ∧ ∀ (rf₂ : Resolver) (s₂ : LispState),
           tryFullF rf₂ (body ++ [convertCatch tail]) s₂ =
             ((match tryRunF rf₂ (body ++ [convertCatch tail]) .null s₂ with
               | (t, .done v2) => (t, .ok v2)
               | (t, .threw _ e₂) => (t, .thrown e₂)
               | (t, .tmo) => (t, .timeout)),
              body ++ [convertCatch tail])) := by
  intro rf args body tail s s₁ ret e hd hr
  have hdnone : tryDetect (body ++ [convertCatch tail]) = none := by
    unfold tryDetect
    rw [List.getLast?_concat]
    rfl
  refine ⟨?_, rfl, hdnone, ?_⟩
  · rw [tryFullF_with_catch hd, hr]
  · intro rf₂ s₂
    exact tryFullF_no_catch hdnone

/-- C10 witness: `(try (throw 0) (catch))` leaves behind the forms
`(throw 0)` and `(lambda ())`, on which the catch detection fails. -/
theorem try_mutates_catch_clause_witness :
    (tryFullF (resolve 5) [.list [.sym "throw", .num 0], .list [.sym "catch"]] initState).2
      = [.list [.sym "throw", .num 0]] ++ [convertCatch []] :=
  ((try_mutates_catch_clause (resolve 5)
      [.list [.sym "throw", .num 0], .list [.sym "catch"]]
      [.list [.sym "throw", .num 0]] [] initState initState
      .null (.num 0)) rfl rfl).1

end JsLisp

namespace JsLisp

theorem frameAt_fresh (s : LispState) :
    frameAt { s with frames := s.frames ++ [{ parent := .env s.cur, symbols := [] }], cur := s.frames.length } s.frames.length
      = some { parent := .env s.cur, symbols := [] } :=
  List.get?_concat_length _ _

theorem envOwner_through_fresh {s : LispState} {p : String} {r : Option Nat}
    (hcur : s.cur < s.frames.length) (hown : envOwner s s.cur p = some r) :
    envOwner { s with frames := s.frames ++ [{ parent := .env s.cur, symbols := [] }], cur := s.frames.length } s.frames.length p = some r := by
  rw [envOwner, walkEnd, frameAt_fresh s]
  dsimp only [alookup]
  rw [envOwner] at hown
  have h1 : walkEnd { s with frames := s.frames ++ [{ parent := ParentRef.env s.cur, symbols := [] }] }
      (s.cur + 1) s.cur p = some r := walkEnd_append hown
  have h2 : walkEnd { s with frames := s.frames ++ [{ parent := ParentRef.env s.cur, symbols := [] }], cur := s.frames.length } (s.cur + 1) s.cur p = some r :=
    (walkEnd_frames_eq
      { s with frames := s.frames ++ [{ parent := ParentRef.env s.cur, symbols := [] }], cur := s.frames.length }
      { s with frames := s.frames ++ [{ parent := ParentRef.env s.cur, symbols := [] }] }
      rfl (s.cur + 1) s.cur p).trans h1
  exact walkEnd_le (by omega) h2

/-- C8: a function installed by `defun` binds its parameters with Env.set
on a fresh empty frame, not with Env.let. For a one-parameter function with
an empty body called with argument `v` in a state where the chain from the
current frame settles the name `p` (nearest frame owner, or the host
namespace), the call: returns null and restores the caller's frame; leaves
the fresh call frame empty, so the parameter is never shadowed there; when
a frame `f` owns `p`, rewrites that binding in place to `v`, an overwrite
that survives the call, so that looking `p` up from the caller's frame
afterwards yields the argument `v`; and when no frame owns `p`, writes `p
:= v` to the host namespace, leaving every frame untouched. -/
theorem defun_params_overwrite :
    ∀ (rf : Resolver) (p : String) (v : Value) (s : LispState) (r : Option Nat),
      splitDots p = [p] →
      envOwner s s.cur p = some r →
      s.cur < s.frames.length →
      ∃ s₃, applyFunF rf (.defunFn [p] []) .undefined [v] s = (s₃, .ok .null)
        ∧ s₃.cur = s.cur
        ∧ frameAt s₃ s.frames.length = some { parent := .env s.cur, symbols := [] }
        ∧ envGet s₃ s.cur p = v
        ∧ (∀ f, r = some f → ∃ fr, frameAt s f = some fr
             ∧ frameAt s₃ f = some { fr with symbols := aset fr.symbols p v })
        ∧ (r = none → s₃.frames = s.frames ++ [{ parent := .env s.cur, symbols := [] }]
             ∧ alookup s₃.globalNS p = some v) := by
  intro rf p v s r hU hown hcur
  have happ : applyFunF rf (.defunFn [p] []) .undefined [v] s =
      (popEnv (envSet
        { s with frames := s.frames ++ [{ parent := .env s.cur, symbols := [] }], cur := s.frames.length } s.frames.length p v), .ok .null) := rfl
  have hownB := envOwner_through_fresh hcur hown
  have hset := envSet_char
      { s with frames := s.frames ++ [{ parent := .env s.cur, symbols := [] }], cur := s.frames.length }
      s.frames.length v hU hownB
  cases r with
  | none =>
    have hsG : envSet { s with frames := s.frames ++ [{ parent := .env s.cur, symbols := [] }], cur := s.frames.length } s.frames.length p v =
        { frames := s.frames ++ [{ parent := .env s.cur, symbols := [] }], globalNS := aset s.globalNS p v, cur := s.frames.length } := hset
    have hpop : popEnv { frames := s.frames ++ [{ parent := ParentRef.env s.cur, symbols := [] }], globalNS := aset s.globalNS p v, cur := s.frames.length } =
        { frames := s.frames ++ [{ parent := ParentRef.env s.cur, symbols := [] }], globalNS := aset s.globalNS p v, cur := s.cur } := by
      unfold popEnv
      rw [show frameAt { frames := s.frames ++ [{ parent := ParentRef.env s.cur, symbols := [] }], globalNS := aset s.globalNS p v, cur := s.frames.length } s.frames.length
          = some { parent := ParentRef.env s.cur, symbols := [] } from
            List.get?_concat_length _ _]
    refine ⟨{ frames := s.frames ++ [{ parent := ParentRef.env s.cur, symbols := [] }], globalNS := aset s.globalNS p v, cur := s.cur }, ?_, rfl, ?_, ?_, ?_, ?_⟩
    · rw [happ, hsG, hpop]
    · exact List.get?_concat_length _ _
    · have hw : walkEnd { frames := s.frames ++ [{ parent := ParentRef.env s.cur, symbols := [] }], globalNS := aset s.globalNS p v, cur := s.cur } (s.cur + 1) s.cur p = some none :=
        (walkEnd_frames_eq { frames := s.frames ++ [{ parent := ParentRef.env s.cur, symbols := [] }], globalNS := aset s.globalNS p v, cur := s.cur } { s with frames := s.frames ++ [{ parent := ParentRef.env s.cur, symbols := [] }] } rfl (s.cur + 1) s.cur p).trans (walkEnd_append hown)
      rw [envGet_undotted hU, getAux_of_walkEnd hw]
      dsimp only [Option.elim]
      rw [alookup_aset_self]
      rfl
    · intro f hf
      exact Option.noConfusion hf
    · intro _
      exact ⟨rfl, alookup_aset_self _ _ _⟩
  | some f =>
    have hown' : walkEnd s (s.cur + 1) s.cur p = some (some f) := hown
    obtain ⟨fr, w, hgf, haf⟩ := walkEnd_owner_owns hown'
    have hflt : f < s.frames.length := frameAt_lt_length hgf
    have hgfB : frameAt { s with frames := s.frames ++ [{ parent := .env s.cur, symbols := [] }], cur := s.frames.length } f = some fr := by
      show (s.frames ++ _).get? f = some fr
      rw [List.get?_append hflt]
      exact hgf
    have hupdate : updateFrame { s with
        frames := s.frames ++ [{ parent := .env s.cur, symbols := [] }], cur := s.frames.length } f p v =
        { frames := (s.frames ++ [({ parent := ParentRef.env s.cur, symbols := [] } : Frame)]).set f { fr with symbols := aset fr.symbols p v }, globalNS := s.globalNS, cur := s.frames.length } := by
      unfold updateFrame
      rw [hgfB]
    have hsU : envSet { s with frames := s.frames ++ [{ parent := .env s.cur, symbols := [] }], cur := s.frames.length } s.frames.length p v =
        { frames := (s.frames ++ [({ parent := ParentRef.env s.cur, symbols := [] } : Frame)]).set f { fr with symbols := aset fr.symbols p v }, globalNS := s.globalNS, cur := s.frames.length } := by
      rw [hset]
      exact hupdate
    have hgN : frameAt { frames := (s.frames ++ [({ parent := ParentRef.env s.cur, symbols := [] } : Frame)]).set f { fr with symbols := aset fr.symbols p v }, globalNS := s.globalNS, cur := s.frames.length } s.frames.length
        = some { parent := ParentRef.env s.cur, symbols := [] } := by
      show ((s.frames ++ _).set f _).get? s.frames.length = _
      rw [List.get?_set_ne _ _ (by omega)]
      exact List.get?_concat_length _ _
    have hpop : popEnv { frames := (s.frames ++ [({ parent := ParentRef.env s.cur, symbols := [] } : Frame)]).set f { fr with symbols := aset fr.symbols p v }, globalNS := s.globalNS, cur := s.frames.length } =
        { frames := (s.frames ++ [({ parent := ParentRef.env s.cur, symbols := [] } : Frame)]).set f { fr with symbols := aset fr.symbols p v }, globalNS := s.globalNS, cur := s.cur } := by
      unfold popEnv
      rw [hgN]
    refine ⟨{ frames := (s.frames ++ [({ parent := ParentRef.env s.cur, symbols := [] } : Frame)]).set f { fr with symbols := aset fr.symbols p v }, globalNS := s.globalNS, cur := s.cur }, ?_, rfl, ?_, ?_, ?_, ?_⟩
    · rw [happ, hsU, hpop]
    · show ((s.frames ++ _).set f _).get? s.frames.length = _
      rw [List.get?_set_ne _ _ (by omega)]
      exact List.get?_concat_length _ _
    · have hwB : walkEnd { s with frames := s.frames ++ [{ parent := ParentRef.env s.cur, symbols := [] }], cur := s.frames.length } (s.cur + 1) s.cur p = some (some f) :=
        (walkEnd_frames_eq { s with frames := s.frames ++ [{ parent := ParentRef.env s.cur, symbols := [] }], cur := s.frames.length } { s with frames := s.frames ++ [{ parent := ParentRef.env s.cur, symbols := [] }] } rfl (s.cur + 1) s.cur p).trans (walkEnd_append hown)
      have hwU := walkEnd_updateFrame (v := v) hwB
      rw [hupdate] at hwU
      have hw3 : walkEnd { frames := (s.frames ++ [({ parent := ParentRef.env s.cur, symbols := [] } : Frame)]).set f { fr with symbols := aset fr.symbols p v }, globalNS := s.globalNS, cur := s.cur } (s.cur + 1) s.cur p = some (some f) :=
        (walkEnd_frames_eq { frames := (s.frames ++ [({ parent := ParentRef.env s.cur, symbols := [] } : Frame)]).set f { fr with symbols := aset fr.symbols p v }, globalNS := s.globalNS, cur := s.cur } { frames := (s.frames ++ [({ parent := ParentRef.env s.cur, symbols := [] } : Frame)]).set f { fr with symbols := aset fr.symbols p v }, globalNS := s.globalNS, cur := s.frames.length } rfl (s.cur + 1) s.cur p).trans hwU
      rw [envGet_undotted hU, getAux_of_walkEnd hw3]
      dsimp only [Option.elim]
      rw [show ownedVal { frames := (s.frames ++ [({ parent := ParentRef.env s.cur, symbols := [] } : Frame)]).set f { fr with symbols := aset fr.symbols p v }, globalNS := s.globalNS, cur := s.cur } f p = some v from ?_]
      · rfl
      · rw [ownedVal]
        rw [show frameAt { frames := (s.frames ++ [({ parent := ParentRef.env s.cur, symbols := [] } : Frame)]).set f { fr with symbols := aset fr.symbols p v }, globalNS := s.globalNS, cur := s.cur } f
            = some { fr with symbols := aset fr.symbols p v } from ?_]
        · dsimp only [Option.bind]
          exact alookup_aset_self _ _ _
        · show ((s.frames ++ _).set f _).get? f = _
          rw [List.get?_set_eq_of_lt]
          rw [List.length_append]
          omega
    · intro f₂ hf₂
      cases hf₂
      refine ⟨fr, hgf, ?_⟩
      show ((s.frames ++ _).set f _).get? f = _
      rw [List.get?_set_eq_of_lt]
      rw [List.length_append]
      omega
    · intro hnone
      exact Option.noConfusion hnone

end JsLisp

namespace JsLisp

/-- C3 witness: a closure whose body throws hands back the state with the
binding of `this` still in the closure's frame and that frame still
current: the caller's environment is not reinstated. -/
theorem env_restore_normal_path_only_witness :
    applyFunF (resolve 5) (.closure 0 [] [.list [.sym "throw", .num 0]]) .undefined [] initState
      = ({ frames := [{ parent := .host, symbols := [("this", Value.undefined)] }],
           globalNS := initGlobal, cur := 0 }, .thrown (.num 0)) :=
  (env_restore_normal_path_only).2.1 (resolve 5) 0 [] [.list [.sym "throw", .num 0]]
    .undefined [] initState
    { frames := [{ parent := .host, symbols := [("this", Value.undefined)] }],
      globalNS := initGlobal, cur := 0 } (.num 0) rfl

/-- C8 witness: in a state whose root frame owns `p := 1`, calling the
defun-installed one-parameter function with argument 2 overwrites the root
binding in place: after the call the caller's frame is current again and
`p` reads 2. -/
theorem defun_params_overwrite_witness :
    ∃ s₃, applyFunF (resolve 5) (.defunFn ["p"] []) .undefined [.num 2]
        { frames := [{ parent := .host, symbols := [("p", Value.num 1)] }],
          globalNS := initGlobal, cur := 0 } = (s₃, .ok .null)
      ∧ s₃.cur = 0
      ∧ envGet s₃ 0 "p" = .num 2 := by
  obtain ⟨s₃, h1, h2, h3, h4, h5, h6⟩ :=
    defun_params_overwrite (resolve 5) "p" (.num 2)
      { frames := [{ parent := .host, symbols := [("p", Value.num 1)] }],
        globalNS := initGlobal, cur := 0 } (some 0) rfl rfl (by decide)
  exact ⟨s₃, h1, h2, h4⟩

end JsLisp
